import Mathlib

/-!
Shallow embedding of the gdrive-dedup core (detector models, deletion
strategies, detection pipeline, trash executor, name merger) translated from
the Python sources under src/src/gdrive_dedup/, together with theorems
settling the frozen claims about it.

Conventions used throughout:
* Python `int` is modelled as `Int` (sizes, timestamps), `str` as `String`.
* `datetime` values are modelled by their total order only: `Int` timestamps
  for `FileRecord.modified_time`, and a year/month/day triple for the dates
  the name parser extracts (those have no time-of-day component).
* Fallible Python code is modelled in `Except PyExc`; an uncaught exception
  is `.error e`.
* Regular-expression and glob matching are embedded by a small backtracking
  engine whose enumeration order equals CPython `re`'s backtracking order,
  specialised to the ASCII character classes the fixed patterns use.
-/

/-- Python exception values that the embedded code can raise. Only the
constructor identity matters for the claims; messages are dropped. -/
inductive PyExc where
  | zeroDivisionError
  | valueError
  | actionError
  | rateLimitError
  | httpError (status : Int)
  | otherError
  deriving DecidableEq, Repr

/-- Decidable equality of `Except` results, for evaluating the embedded
functions on concrete inputs. -/
instance {ε α : Type} [DecidableEq ε] [DecidableEq α] :
    DecidableEq (Except ε α) := fun x y =>
  match x, y with
  | .ok a, .ok b =>
      if h : a = b then isTrue (by rw [h])
      else isFalse (by intro hc; cases hc; exact h rfl)
  | .ok _, .error _ => isFalse (by intro hc; cases hc)
  | .error _, .ok _ => isFalse (by intro hc; cases hc)
  | .error e, .error f =>
      if h : e = f then isTrue (by rw [h])
      else isFalse (by intro hc; cases hc; exact h rfl)

/-- detector/models.py `FileRecord` (dataclass). `created_time` and
`modified_time` are `datetime`s, modelled by timestamps. -/
structure FileRecord where
  file_id : String
  name : String
  size : Int
  md5 : Option String
  mime_type : String
  created_time : Int
  modified_time : Int
  path : String
  trashed : Bool := false
  owned_by_me : Bool := true
  deriving DecidableEq, Repr

/-- detector/models.py `DuplicateGroup` (dataclass). -/
structure DuplicateGroup where
  group_id : Nat
  files : List FileRecord
  size : Int
  md5 : Option String := none
  deriving DecidableEq, Repr

/-- `DuplicateGroup.count`: `len(self.files)`. -/
def DuplicateGroup.count (g : DuplicateGroup) : Nat :=
  g.files.length

/-- `DuplicateGroup.total_size`: `self.size * len(self.files)`. -/
def DuplicateGroup.total_size (g : DuplicateGroup) : Int :=
  g.size * (g.files.length : Int)

/-- `DuplicateGroup.wasted_size`: `self.size * (len(self.files) - 1)`. -/
def DuplicateGroup.wasted_size (g : DuplicateGroup) : Int :=
  g.size * ((g.files.length : Int) - 1)

/-- Python `max(xs, key=k)` keeps the current element on ties, so it returns
the first element with maximal key; it raises on an empty list, modelled by
`none`. `better x acc = true` when `x` must replace the accumulator. -/
def pyPick (better : FileRecord → FileRecord → Bool) :
    List FileRecord → Option FileRecord
  | [] => none
  | f :: fs => some (fs.foldl (fun acc x => if better x acc then x else acc) f)

/-- `DuplicateGroup.newest_file`: `max(self.files, key=lambda f: f.modified_time)`. -/
def DuplicateGroup.newest_file (g : DuplicateGroup) : Option FileRecord :=
  pyPick (fun x acc => acc.modified_time < x.modified_time) g.files

/-- `DuplicateGroup.oldest_file`: `min(self.files, key=lambda f: f.modified_time)`. -/
def DuplicateGroup.oldest_file (g : DuplicateGroup) : Option FileRecord :=
  pyPick (fun x acc => x.modified_time < acc.modified_time) g.files

/-- `DuplicateGroup.shortest_path`: `min(self.files, key=lambda f: len(f.path))`. -/
def DuplicateGroup.shortest_path (g : DuplicateGroup) : Option FileRecord :=
  pyPick (fun x acc => x.path.length < acc.path.length) g.files

/-- `DuplicateGroup.longest_path`: `max(self.files, key=lambda f: len(f.path))`. -/
def DuplicateGroup.longest_path (g : DuplicateGroup) : Option FileRecord :=
  pyPick (fun x acc => acc.path.length < x.path.length) g.files

/-- Number of `'/'` characters in a path; `path_depth` in
`KeepDeepestPathStrategy` (`file.path.count('/')`). -/
def pathDepth (f : FileRecord) : Nat :=
  f.path.data.count '/'

/-- Membership of a character in the body of a glob character class, following
the regex class semantics that `fnmatch.translate` produces: `a-b` between two
characters is a codepoint range, a `-` at either end is a literal, and every
other character is a literal member. A reversed range matches nothing (CPython
would reject the compiled pattern; such patterns never match anything here,
which keeps the matcher total without affecting any claim). -/
def charInClass (c : Char) : List Char → Bool
  | a :: '-' :: b :: rest =>
      (decide (a ≤ c) && decide (c ≤ b)) || charInClass c rest
  | a :: rest => (a == c) || charInClass c rest
  | [] => false

/-- `fnmatch.fnmatch(name, pat)` on POSIX (`os.path.normcase` is the
identity): full match of `name` against the glob `pat`, where `*` matches any
character sequence (the translated regex runs with DOTALL, so `/` included),
`?` matches any single character, and `[...]`/`[!...]` are character classes.
Per `fnmatch.translate`, the class body starts after an optional leading `!`
(negation) and an optional leading `]` (literal), and runs to the next `]`;
a `[` with no closing `]` is a literal `[`. -/
def globMatchF (fuel : Nat) (p : List Char) (s : List Char) : Bool :=
  match fuel with
  | 0 => false
  | fuel + 1 =>
    match p, s with
    | [], [] => true
    | [], _ :: _ => false
    | '*' :: p', s =>
        globMatchF fuel p' s ||
          (match s with
           | [] => false
           | _ :: s' => globMatchF fuel ('*' :: p') s')
    | '?' :: _, [] => false
    | '?' :: p', _ :: s' => globMatchF fuel p' s'
    | '[' :: p', s =>
        let skip1 : Nat := match p' with | '!' :: _ => 1 | _ => 0
        let skip2 : Nat := match p'.drop skip1 with | ']' :: _ => skip1 + 1 | _ => skip1
        match (p'.drop skip2).findIdx? (· == ']') with
        | none =>
            -- no closing bracket: '[' is matched as a literal character
            (match s with
             | [] => false
             | c :: s' => ('[' == c) && globMatchF fuel p' s')
        | some k =>
            let close := skip2 + k
            let neg : Bool := skip1 == 1
            let body := (p'.take close).drop skip1
            let rest := p'.drop (close + 1)
            (match s with
             | [] => false
             | c :: s' => (charInClass c body != neg) && globMatchF fuel rest s')
    | c :: p', c' :: s' => (c == c') && globMatchF fuel p' s'
    | _ :: _, [] => false

/-- Glob matching at the top level. Every recursive step of `globMatchF`
shortens `p.length + s.length`, so this fuel is never exhausted. -/
def globMatch (p : List Char) (s : List Char) : Bool :=
  globMatchF (p.length + s.length + 1) p s

/-- `fnmatch(f.path, keep_path)` as called by the strategies. -/
def fnmatchStr (name pattern : String) : Bool :=
  globMatch pattern.data name.data

/-- Python truthiness of an `Optional[str]`: `None` and `""` are falsy. -/
def pyTruthyStr : Option String → Bool
  | none => false
  | some s => !(s == "")

/-- The keep-path override block that every strategy class except
`KeepPathStrategy` opens with (the two nested `if`s in
`select_files_to_trash`): when `keep_path` is truthy and at least one member
matches it, the non-matching members are returned and the strategy body is
skipped; `none` means "fall through to the strategy body". The source
replicates this block verbatim in each class. -/
def keepPathOverride (g : DuplicateGroup) (keep_path : Option String) :
    Option (List FileRecord) :=
  if pyTruthyStr keep_path then
    let p := keep_path.getD ""
    let matching_files := g.files.filter (fun f => fnmatchStr f.path p)
    if matching_files.isEmpty then none
    else some (g.files.filter (fun f => !(fnmatchStr f.path p)))
  else none

/-- `KeepNewestStrategy.select_files_to_trash`: keep newest, trash rest.
`none` models the `ValueError` from `max` on an empty group. -/
def keepNewestSelect (g : DuplicateGroup) (keep_path : Option String) :
    Option (List FileRecord) :=
  match keepPathOverride g keep_path with
  | some l => some l
  | none =>
      g.newest_file.map fun newest =>
        g.files.filter (fun f => !(f.file_id == newest.file_id))

/-- `KeepOldestStrategy.select_files_to_trash`: keep oldest, trash rest. -/
def keepOldestSelect (g : DuplicateGroup) (keep_path : Option String) :
    Option (List FileRecord) :=
  match keepPathOverride g keep_path with
  | some l => some l
  | none =>
      g.oldest_file.map fun oldest =>
        g.files.filter (fun f => !(f.file_id == oldest.file_id))

/-- `KeepShortestPathStrategy.select_files_to_trash`. -/
def keepShortestSelect (g : DuplicateGroup) (keep_path : Option String) :
    Option (List FileRecord) :=
  match keepPathOverride g keep_path with
  | some l => some l
  | none =>
      g.shortest_path.map fun shortest =>
        g.files.filter (fun f => !(f.file_id == shortest.file_id))

/-- `KeepLongestPathStrategy.select_files_to_trash`. -/
def keepLongestSelect (g : DuplicateGroup) (keep_path : Option String) :
    Option (List FileRecord) :=
  match keepPathOverride g keep_path with
  | some l => some l
  | none =>
      g.longest_path.map fun longest =>
        g.files.filter (fun f => !(f.file_id == longest.file_id))

/-- `KeepDeepestPathStrategy.select_files_to_trash`: keeps
`max(group.files, key=path_depth)`. -/
def keepDeepestSelect (g : DuplicateGroup) (keep_path : Option String) :
    Option (List FileRecord) :=
  match keepPathOverride g keep_path with
  | some l => some l
  | none =>
      (pyPick (fun x acc => pathDepth acc < pathDepth x) g.files).map fun deepest =>
        g.files.filter (fun f => !(f.file_id == deepest.file_id))

/-- `KeepPathStrategy.select_files_to_trash`: keep files matching the
pattern; with no (truthy) pattern or no match, keep the first member and
trash `group.files[1:]`. Never raises, hence always `some`. -/
def keepPathSelect (g : DuplicateGroup) (keep_path : Option String) :
    Option (List FileRecord) :=
  if !(pyTruthyStr keep_path) then
    some g.files.tail
  else
    let p := keep_path.getD ""
    let matching_files := g.files.filter (fun f => fnmatchStr f.path p)
    if matching_files.isEmpty then
      some g.files.tail
    else
      some (g.files.filter (fun f => !(fnmatchStr f.path p)))

/-- `MergeNamesStrategy.select_files_to_trash`: same selection as keep-newest
(the rename of the survivor is decided separately by `get_rename_info`). -/
def mergeNamesSelect (g : DuplicateGroup) (keep_path : Option String) :
    Option (List FileRecord) :=
  match keepPathOverride g keep_path with
  | some l => some l
  | none =>
      g.newest_file.map fun newest =>
        g.files.filter (fun f => !(f.file_id == newest.file_id))

/-- The closed set of deletion strategies (one constructor per class
registered in `get_strategy`). -/
inductive StrategyName where
  | newest | oldest | shortest | longest | deepest | path | mergeNames
  deriving DecidableEq, Repr

/-- Dispatch of `select_files_to_trash` over the strategy classes. -/
def select_files_to_trash (s : StrategyName) (g : DuplicateGroup)
    (keep_path : Option String) : Option (List FileRecord) :=
  match s with
  | .newest => keepNewestSelect g keep_path
  | .oldest => keepOldestSelect g keep_path
  | .shortest => keepShortestSelect g keep_path
  | .longest => keepLongestSelect g keep_path
  | .deepest => keepDeepestSelect g keep_path
  | .path => keepPathSelect g keep_path
  | .mergeNames => mergeNamesSelect g keep_path

/-- The `strategies` dict in `get_strategy`, in source order. -/
def strategyTable : List (String × StrategyName) :=
  [("newest", .newest), ("oldest", .oldest), ("shortest", .shortest),
   ("longest", .longest), ("deepest", .deepest), ("path", .path),
   ("merge-names", .mergeNames)]

/-- `strategy_name.lower()`. CPython lowercases by full Unicode mapping and
`Char.toLower` only by the ASCII mapping; the two agree on whether the result
is one of the seven ASCII strategy names, because no non-ASCII character
lowercases to any character of those names. -/
def pyLowerAscii (s : String) : String :=
  String.mk (s.data.map Char.toLower)

/-- `get_strategy(strategy_name)`: dict lookup on the lowercased name;
`ValueError` when absent. -/
def get_strategy (strategy_name : String) : Except PyExc StrategyName :=
  match strategyTable.lookup (pyLowerAscii strategy_name) with
  | some c => .ok c
  | none => .error .valueError

/-- First-occurrence deduplication, matching the key order produced by
grouping rows in table order. -/
def dedupKeepFirstF {α : Type} [DecidableEq α] : Nat → List α → List α
  | 0, _ => []
  | _ + 1, [] => []
  | fuel + 1, a :: as => a :: dedupKeepFirstF fuel (as.filter (fun x => !(x == a)))

/-- First-occurrence deduplication at the top level. Each step of
`dedupKeepFirstF` works on a strictly shorter list (`filter` never grows
one), so this fuel is never exhausted. -/
def dedupKeepFirst {α : Type} [DecidableEq α] (l : List α) : List α :=
  dedupKeepFirstF l.length l

/-- scanner/file_index.py `FileIndex.find_by_size`: the SQL query groups the
non-trashed, checksum-bearing rows with `size >= min_size` by exact size and
keeps groups with more than one row, returning size -> member file ids. The
table is modelled as the list of its rows; `GROUP_CONCAT` followed by
`ids.split(",")` is modelled as the id list directly (Drive file ids contain
no comma), and the unspecified SQLite group/row order as first-occurrence /
table order (no claim depends on it). -/
def find_by_size (index : List FileRecord) (min_size : Int) :
    List (Int × List String) :=
  let rows := index.filter fun r =>
    !r.trashed && decide (min_size ≤ r.size) && r.md5.isSome
  let sizes := dedupKeepFirst (rows.map (·.size))
  sizes.filterMap fun sz =>
    let ids := (rows.filter (fun r => r.size == sz)).map (·.file_id)
    if 1 < ids.length then some (sz, ids) else none

/-- `FileIndex.get_files_by_ids`: empty input short-circuits to `[]`;
otherwise `SELECT * FROM files WHERE file_id IN (...)` in table order. -/
def get_files_by_ids (index : List FileRecord) (file_ids : List String) :
    List FileRecord :=
  if file_ids.isEmpty then []
  else index.filter fun r => file_ids.contains r.file_id

/-- `FileIndex.find_by_md5`: groups the non-trashed rows whose md5 is in
`md5_list` by exact md5, keeps groups with more than one row, and drops a
falsy (empty-string) md5 key (`if md5:`); a NULL md5 never matches `IN`. -/
def find_by_md5 (index : List FileRecord) (md5_list : List String) :
    List (String × List String) :=
  let rows := index.filter fun r =>
    !r.trashed &&
      (match r.md5 with
       | some m => md5_list.contains m
       | none => false)
  let keys := dedupKeepFirst (rows.filterMap (·.md5))
  keys.filterMap fun m =>
    let ids := (rows.filter (fun r => r.md5 == some m)).map (·.file_id)
    if 1 < ids.length && !(m == "") then some (m, ids) else none

/-- The `total_files / len(groups)` average computed inside the log f-string
of both passes: evaluating the f-string raises `ZeroDivisionError` when the
group dict is empty. Only definedness matters (the quotient is only
formatted into the log message). -/
def pyAvgInLog (_total : Nat) (groups : Nat) : Except PyExc Unit :=
  if groups == 0 then .error .zeroDivisionError else .ok ()

/-- detector/size_pass.py `SizePass.find_candidates`: queries
`find_by_size` and then logs the average group size, which divides by the
number of groups. -/
def sizePass_find_candidates (index : List FileRecord) (min_size : Int) :
    Except PyExc (List (Int × List String)) :=
  let candidates := find_by_size index min_size
  let total_files := (candidates.map (fun g => g.2.length)).sum
  match pyAvgInLog total_files candidates.length with
  | .error e => .error e
  | .ok _ => .ok candidates

/-- detector/checksum_pass.py `ChecksumPass.find_duplicates`: flattens the
size-group ids, fetches the records, keeps truthy md5s, groups them via
`find_by_md5`, and then logs the average group size (dividing by the number
of md5 groups). -/
def checksumPass_find_duplicates (index : List FileRecord)
    (size_groups : List (Int × List String)) :
    Except PyExc (List (String × List String)) :=
  let all_file_ids := (size_groups.map (·.2)).flatten
  if all_file_ids.isEmpty then
    .ok []
  else
    let files := get_files_by_ids index all_file_ids
    let md5_list := files.filterMap fun f =>
      match f.md5 with
      | some m => if m == "" then none else some m
      | none => none
    if md5_list.isEmpty then
      .ok []
    else
      let md5_groups := find_by_md5 index md5_list
      let total_files := (md5_groups.map (fun g => g.2.length)).sum
      match pyAvgInLog total_files md5_groups.length with
      | .error e => .error e
      | .ok _ => .ok md5_groups

/-- detector/byte_pass.py `BytePass.verify_duplicates`: the identity
transform (explicit placeholder in the source). -/
def bytePass_verify_duplicates (md5_groups : List (String × List String)) :
    List (String × List String) :=
  md5_groups

/-- Python `list.sort(key=wasted_size, reverse=True)` insertion step: a group
is inserted after every already-placed group with a key greater than or equal
to its own, which preserves original order among equal keys (stable sort,
descending). -/
def insertByWastedDesc (g : DuplicateGroup) :
    List DuplicateGroup → List DuplicateGroup
  | [] => [g]
  | h :: t =>
      if g.wasted_size ≤ h.wasted_size then h :: insertByWastedDesc g t
      else g :: h :: t

/-- Stable descending sort by `wasted_size` (Python `sort` with
`reverse=True`). -/
def sortByWastedDesc (l : List DuplicateGroup) : List DuplicateGroup :=
  l.foldl (fun acc g => insertByWastedDesc g acc) []

/-- Body of the group-assembly loop in `detect_duplicates`: `gi` is one
`enumerate(md5_groups.items())` element (zero-based index, md5, ids); a
`DuplicateGroup` is only constructed when more than one record resolves,
with `group_id = index + 1` and `size` taken from the first resolved
record. -/
def assembleGroup (index : List FileRecord)
    (gi : Nat × String × List String) : Option DuplicateGroup :=
  let files := get_files_by_ids index gi.2.2
  match files with
  | f0 :: _ :: _ =>
      some { group_id := gi.1 + 1, files := files, size := f0.size,
             md5 := some gi.2.1 }
  | _ => none

/-- detector/pipeline.py `DetectionPipeline.detect_duplicates`: size pass,
empty-check, checksum pass, empty-check, optional byte pass, group assembly
(`enumerate(..., start=1)`), final stable sort by wasted size descending.
An exception from either pass propagates. -/
def detect_duplicates (index : List FileRecord) (min_size : Int)
    (byte_compare : Bool) : Except PyExc (List DuplicateGroup) :=
  match sizePass_find_candidates index min_size with
  | .error e => .error e
  | .ok size_groups =>
    if size_groups.isEmpty then
      .ok []
    else
      match checksumPass_find_duplicates index size_groups with
      | .error e => .error e
      | .ok md5_groups =>
        if md5_groups.isEmpty then
          .ok []
        else
          let md5_groups :=
            if byte_compare then bytePass_verify_duplicates md5_groups
            else md5_groups
          .ok (sortByWastedDesc
            (md5_groups.enum.filterMap (assembleGroup index)))

/-- The remote mutations the Drive API offers that are relevant here:
`files().update(fileId=..., body={"trashed": value})` and the
permanent-delete `files().delete(fileId=...)`. The trash executor must never
emit the latter. -/
inductive RemoteOp where
  | filesUpdateTrashed (file_id : String) (trashedVal : Bool)
  | filesDelete (file_id : String)
  deriving DecidableEq, Repr

/-- Behaviour of one remote `update(...).execute()` call: success, an
`HttpError` with a status code, or some other exception. -/
inductive CallOutcome where
  | ok
  | httpErr (status : Int)
  | exc
  deriving DecidableEq, Repr

/-- Observable effects of a trash run: number of remote calls issued, the
ordered trace of remote operations emitted, and the delays passed to
`time.sleep` by the backoff decorator. -/
structure RunState where
  calls : Nat := 0
  trace : List RemoteOp := []
  sleeps : List Nat := []
  deriving DecidableEq, Repr

/-- actions/trash.py `TrashManager.trash_file` body (the undecorated
function): dry-run returns `True` without touching the remote store;
otherwise it issues exactly one `files().update(fileId, {"trashed": True})`
call (never `files().delete`), returns `False` on a 404 `HttpError`, and
converts every other exception into an `ActionError`. `svc n` is the outcome
of the `n`-th remote call of the run; the trace records the attempted call
whatever its outcome (a failure of `create_service` or the rate limiter
before the call is subsumed by the `exc` outcome, which also lands in the
`except Exception` arm). -/
def trash_file_body (svc : Nat → CallOutcome) (file_id : String)
    (dry_run : Bool) (st : RunState) : Except PyExc Bool × RunState :=
  if dry_run then
    (.ok true, st)
  else
    let outcome := svc st.calls
    let st' := { st with
      calls := st.calls + 1,
      trace := st.trace ++ [RemoteOp.filesUpdateTrashed file_id true] }
    match outcome with
    | .ok => (.ok true, st')
    | .httpErr status =>
        if status == 404 then (.ok false, st')
        else (.error .actionError, st')
    | .exc => (.error .actionError, st')

/-- common/retry.py `exponential_backoff` defaults. -/
def backoffMaxRetries : Nat := 5

/-- The wrapper produced by `exponential_backoff()` applied to
`trash_file`: up to `max_retries + 1` attempts, retrying only when an
`HttpError` with status ≥ 500 or 429 escapes the wrapped function, sleeping
`delay` (starting at `base_delay = 1`, doubled and capped at `max_delay = 60`)
between attempts, raising `RateLimitError` when a 429 exhausts the attempts,
and re-raising every other exception immediately. `fuel` counts the
remaining iterations of `for attempt in range(max_retries + 1)`; the
exhausted-loop fall-through (`raise last_exception or Exception(...)`) is
`.otherError`. -/
def backoffRun (svc : Nat → CallOutcome) (file_id : String) (dry_run : Bool) :
    Nat → Nat → Nat → RunState → Except PyExc Bool × RunState
  | 0, _, _, st => (.error .otherError, st)
  | fuel + 1, attempt, delay, st =>
      let res := trash_file_body svc file_id dry_run st
      match res.1 with
      | .ok v => (.ok v, res.2)
      | .error (.httpError status) =>
          if status < 500 && !(status == 429) then
            (.error (.httpError status), res.2)
          else if attempt == backoffMaxRetries then
            if status == 429 then (.error .rateLimitError, res.2)
            else (.error (.httpError status), res.2)
          else
            backoffRun svc file_id dry_run fuel (attempt + 1)
              (min (delay * 2) 60)
              { res.2 with sleeps := res.2.sleeps ++ [delay] }
      | .error e => (.error e, res.2)

/-- `TrashManager.trash_file` as callers see it: the decorated function. -/
def trash_file (svc : Nat → CallOutcome) (file_id : String) (dry_run : Bool)
    (st : RunState) : Except PyExc Bool × RunState :=
  backoffRun svc file_id dry_run (backoffMaxRetries + 1) 0 1 st

/-- Loop body of `TrashManager.trash_files`: per-id result aggregation, with
`except ActionError` recording `False` and continuing; any other exception
propagates and aborts the batch. -/
def trash_files_loop (svc : Nat → CallOutcome) (dry_run : Bool) :
    List String → List (String × Bool) → RunState →
    Except PyExc (List (String × Bool)) × RunState
  | [], results, st => (.ok results, st)
  | file_id :: rest, results, st =>
      let res := trash_file svc file_id dry_run st
      match res.1 with
      | .ok v => trash_files_loop svc dry_run rest (results ++ [(file_id, v)]) res.2
      | .error .actionError =>
          trash_files_loop svc dry_run rest (results ++ [(file_id, false)]) res.2
      | .error e => (.error e, res.2)

/-- `TrashManager.trash_files`: the results dict is modelled as an
association list in insertion order (identical up to the keyed overwrite a
repeated id would cause, which duplicate-free batches never trigger). -/
def trash_files (svc : Nat → CallOutcome) (file_ids : List String)
    (dry_run : Bool) (st : RunState) :
    Except PyExc (List (String × Bool)) × RunState :=
  trash_files_loop svc dry_run file_ids [] st

/-- One item of a regex character class: a literal member or a codepoint
range. -/
inductive ClsItem where
  | one (c : Char)
  | rng (lo hi : Char)
  deriving DecidableEq, Repr

/-- Abstract syntax of the fixed regular expressions in
actions/name_merger.py: literals, character classes, capturing groups,
concatenation, prioritised alternation, greedy star and the `$` anchor cover
every pattern in the source; `+`, `?`, `{n}`, `{n,}` and `{1,2}` are derived
forms below. -/
inductive RE where
  | eps
  | lit (c : Char)
  | cls (items : List ClsItem)
  | grp (r : RE)
  | cat (a b : RE)
  | alt (a b : RE)
  | star (r : RE)
  | eol
  deriving Repr

/-- Character equality under an optional `re.IGNORECASE` flag. The fixed
patterns only fold ASCII letters, where CPython case folding and
`Char.toLower` agree. -/
def chEq (ci : Bool) (pc sc : Char) : Bool :=
  pc == sc || (ci && (pc.toLower == sc.toLower))

/-- Range membership by codepoint. -/
def inRng (lo hi c : Char) : Bool :=
  decide (lo ≤ c) && decide (c ≤ hi)

/-- One class item against one character, honouring `re.IGNORECASE` (a
character matches a range if it or a case sibling lies in it). -/
def clsItemMatch (ci : Bool) (c : Char) : ClsItem → Bool
  | .one d => chEq ci d c
  | .rng lo hi =>
      inRng lo hi c || (ci && (inRng lo hi c.toLower || inRng lo hi c.toUpper))

/-- Class membership. -/
def clsMatch (ci : Bool) (items : List ClsItem) (c : Char) : Bool :=
  items.any (clsItemMatch ci c)

/-- Greedy iteration of a star body, in backtracking priority order: more
iterations first, the empty repetition last. An iteration that consumes
nothing is not repeated (CPython's engine likewise never repeats an empty
match; every starred body in the fixed patterns consumes a character
anyway). `fuel` bounds the iteration count by the input length, which no
sequence of non-empty iterations can exceed. -/
def starEnum (body : List Char → List (Nat × List String)) :
    List Char → Nat → List (Nat × List String)
  | _, 0 => [(0, [])]
  | s, fuel + 1 =>
      ((body s).flatMap fun p =>
        if p.1 == 0 then []
        else (starEnum body (s.drop p.1) fuel).map fun q =>
          (p.1 + q.1, p.2 ++ q.2)) ++ [(0, [])]

/-- All complete matches of `r` at the start of `s`, as (consumed length,
captured groups in paren order) pairs, listed in CPython backtracking order:
the head of the list is the match `re` would return. -/
def reEnum (ci : Bool) : RE → List Char → List (Nat × List String)
  | .eps, _ => [(0, [])]
  | .lit c, s =>
      match s with
      | [] => []
      | x :: _ => if chEq ci c x then [(1, [])] else []
  | .cls items, s =>
      match s with
      | [] => []
      | x :: _ => if clsMatch ci items x then [(1, [])] else []
  | .grp r, s =>
      (reEnum ci r s).map fun p => (p.1, String.mk (s.take p.1) :: p.2)
  | .cat a b, s =>
      (reEnum ci a s).flatMap fun p =>
        (reEnum ci b (s.drop p.1)).map fun q => (p.1 + q.1, p.2 ++ q.2)
  | .alt a b, s => reEnum ci a s ++ reEnum ci b s
  | .star r, s => starEnum (fun t => reEnum ci r t) s s.length
  | .eol, s => if s.isEmpty || s == ['\n'] then [(0, [])] else []

/-- Concatenation of a pattern list. -/
def reSeq (rs : List RE) : RE :=
  rs.foldr RE.cat RE.eps

/-- A literal string pattern. -/
def reStr (s : String) : RE :=
  reSeq (s.data.map RE.lit)

/-- `r+`. -/
def rePlus (r : RE) : RE :=
  RE.cat r (RE.star r)

/-- `r?` (greedy: present first). -/
def reOpt (r : RE) : RE :=
  RE.alt r RE.eps

/-- `r{n}`. -/
def reRep : Nat → RE → RE
  | 0, _ => RE.eps
  | n + 1, r => RE.cat r (reRep n r)

/-- `r{n,}`. -/
def reAtLeast (n : Nat) (r : RE) : RE :=
  RE.cat (reRep n r) (RE.star r)

/-- `r{1,2}` (greedy: two first). -/
def reOneOrTwo (r : RE) : RE :=
  RE.alt (RE.cat r r) r

/-- Prioritised alternation of a pattern list (left first). -/
def reAltList : List RE → RE
  | [] => RE.eps
  | [r] => r
  | r :: rest => RE.alt r (reAltList rest)

/-- `\d` (ASCII; the digits the surrounding code consumes). -/
def reDigit : RE :=
  RE.cls [.rng '0' '9']

/-- The `\s` member characters (ASCII whitespace). -/
def spaceItems : List ClsItem :=
  [.one ' ', .one '\t', .one '\n', .one '\r', .one '\x0b', .one '\x0c']

/-- `\s`. -/
def reSpace : RE :=
  RE.cls spaceItems

/-- First match of `r` at the smallest starting position in `rest` (the
scan underlying `re.search`/`finditer`): returns (start offset relative to
`rest` plus `pos`, consumed length, groups). -/
def searchFrom (ci : Bool) (r : RE) : List Char → Nat →
    Option (Nat × Nat × List String)
  | [], pos => ((reEnum ci r []).head?).map fun p => (pos, p.1, p.2)
  | rest@(_ :: t), pos =>
      match (reEnum ci r rest).head? with
      | some p => some (pos, p.1, p.2)
      | none => searchFrom ci r t (pos + 1)

/-- `re.finditer(r, s)`: non-overlapping matches scanned left to right, each
successive scan starting at the end of the previous match (one past it for a
zero-width match), as (absolute start, length, groups). -/
def findIterAux (ci : Bool) (r : RE) : Nat → List Char → Nat →
    List (Nat × Nat × List String)
  | 0, _, _ => []
  | fuel + 1, rest, pos =>
      match searchFrom ci r rest 0 with
      | none => []
      | some (relp, n, caps) =>
          let adv := relp + max n 1
          (pos + relp, n, caps) ::
            (if 1 ≤ adv && adv ≤ rest.length then
              findIterAux ci r fuel (rest.drop adv) (pos + adv)
            else [])

/-- `re.finditer` over a whole string. Every continued scan drops at least
one character of the remainder, so `s.length + 1` steps of fuel are never
exhausted. -/
def pyFindIter (ci : Bool) (r : RE) (s : List Char) :
    List (Nat × Nat × List String) :=
  findIterAux ci r (s.length + 1) s 0

/-- Characters of `s` outside the given (start, length) spans. -/
def removeSpansAux (spans : List (Nat × Nat)) : List Char → Nat → List Char
  | [], _ => []
  | c :: t, i =>
      if spans.any (fun sp => sp.1 ≤ i && i < sp.1 + sp.2) then
        removeSpansAux spans t (i + 1)
      else c :: removeSpansAux spans t (i + 1)

/-- `re.sub(r, '', s)`: deletes every (non-overlapping, left-to-right) match
span. -/
def pySub (ci : Bool) (r : RE) (s : List Char) : List Char :=
  removeSpansAux ((pyFindIter ci r s).map fun m => (m.1, m.2.1)) s 0

/-- String-level `re.sub(r, '', s)`. -/
def pySubStr (ci : Bool) (r : RE) (s : String) : String :=
  String.mk (pySub ci r s.data)

/-- The pieces of `s` between consecutive match spans (sorted, as
`pyFindIter` produces them), including the leading and trailing pieces:
`re.split` for a pattern without capturing groups. -/
def splitBySpans (s : List Char) : Nat → List (Nat × Nat) → List (List Char)
  | cur, [] => [s.drop cur]
  | cur, (st, n) :: rest => (s.drop cur).take (st - cur) :: splitBySpans s (st + n) rest

/-- `re.split(r, s)` for the separator patterns here (no capturing groups,
no zero-width matches). -/
def pySplit (ci : Bool) (r : RE) (s : List Char) : List (List Char) :=
  splitBySpans s 0 ((pyFindIter ci r s).map fun m => (m.1, m.2.1))

/-- `re.match(r, s)` viewed as a boolean (the code only tests it): a match
anchored at position 0. A leading `^` in the source pattern is subsumed by
the anchoring. -/
def pyMatchStart (ci : Bool) (r : RE) (s : List Char) : Bool :=
  (reEnum ci r s).head?.isSome

/-- `re.search(r, s)` viewed as a boolean. -/
def pySearch (ci : Bool) (r : RE) (s : List Char) : Bool :=
  (searchFrom ci r s 0).isSome

/-- `COPY_PATTERNS` from `NameParser`, in source order (applied with
`re.IGNORECASE`). -/
def copyPatterns : List RE :=
  [ reSeq [RE.star reSpace, reOpt (RE.lit '-'), RE.star reSpace,
           reStr "copy", reOpt (RE.grp (reSeq [rePlus reSpace, reStr "of"]))],
    reSeq [RE.star reSpace, RE.lit '(', rePlus reDigit, RE.lit ')'],
    reSeq [RE.star reSpace, RE.lit '[', rePlus reDigit, RE.lit ']'],
    reSeq [RE.star reSpace, RE.lit '-', RE.star reSpace, rePlus reDigit,
           RE.eol],
    reSeq [RE.star reSpace, reStr "copy", RE.star reSpace, RE.star reDigit] ]

/-- The `strptime` format attached to each date pattern (after the no-op
`fmt.replace('_', '-')`). -/
inductive DateFmt where
  | YmdDash   -- '%Y-%m-%d'
  | Ymd       -- '%Y%m%d'
  | mdYDash   -- '%m-%d-%Y'
  | mdY       -- '%m%d%Y'
  | bdYDash   -- '%b-%d-%Y'
  deriving DecidableEq, Repr

/-- `[_-]`. -/
def reUscoreDash : RE :=
  RE.cls [.one '_', .one '-']

/-- `[_\s-]`. -/
def reUscoreSpaceDash : RE :=
  RE.cls ([ClsItem.one '_'] ++ spaceItems ++ [ClsItem.one '-'])

/-- The twelve month abbreviations of the `(Jan|Feb|...|Dec)` alternation,
in source order. -/
def monthAbbrs : List String :=
  ["Jan", "Feb", "Mar", "Apr", "May", "Jun",
   "Jul", "Aug", "Sep", "Oct", "Nov", "Dec"]

/-- `DATE_PATTERNS` from `NameParser`, in source order, paired with their
formats. -/
def datePatterns : List (RE × DateFmt) :=
  [ (reSeq [RE.grp (reRep 4 reDigit), reUscoreDash, RE.grp (reRep 2 reDigit),
            reUscoreDash, RE.grp (reRep 2 reDigit)], .YmdDash),
    (reSeq [RE.grp (reRep 4 reDigit), RE.grp (reRep 2 reDigit),
            RE.grp (reRep 2 reDigit)], .Ymd),
    (reSeq [RE.grp (reRep 2 reDigit), reUscoreDash, RE.grp (reRep 2 reDigit),
            reUscoreDash, RE.grp (reRep 4 reDigit)], .mdYDash),
    (reSeq [RE.grp (reRep 2 reDigit), RE.grp (reRep 2 reDigit),
            RE.grp (reRep 4 reDigit)], .mdY),
    (reSeq [RE.grp (reAltList (monthAbbrs.map reStr)),
            reOpt reUscoreSpaceDash, RE.grp (reOneOrTwo reDigit),
            reOpt reUscoreSpaceDash, RE.grp (reRep 4 reDigit)], .bdYDash) ]

/-- `TIME_PATTERNS` from `NameParser`, in source order. -/
def timePatterns : List RE :=
  [ reSeq [RE.grp (reRep 2 reDigit), RE.cls [.one ':', .one '-', .one '_'],
           RE.grp (reRep 2 reDigit), RE.cls [.one ':', .one '-', .one '_'],
           RE.grp (reRep 2 reDigit)],
    RE.grp (reRep 6 reDigit) ]

/-- `[_\-\s.]`: the separator class of `_extract_descriptive_text` and
`_is_generic`. -/
def reSepCls : RE :=
  RE.cls ([ClsItem.one '_', ClsItem.one '-'] ++ spaceItems ++ [ClsItem.one '.'])

/-- `GENERIC_PATTERNS` from `NameParser`, in source order; they are only used
through `re.match`, so the leading `^` of each source pattern is subsumed by
the anchoring. -/
def genericPatterns : List RE :=
  [ reSeq [reStr "IMG", RE.lit '_', rePlus reDigit, RE.eol],
    reSeq [reStr "DSC", reOpt (RE.lit '_'), rePlus reDigit, RE.eol],
    reSeq [reStr "DCIM", reOpt (RE.lit '_'), rePlus reDigit, RE.eol],
    reSeq [reStr "PIC", reOpt (RE.lit '_'), rePlus reDigit, RE.eol],
    reSeq [reStr "VID", reOpt (RE.lit '_'), rePlus reDigit, RE.eol],
    reSeq [reStr "MOV", reOpt (RE.lit '_'), rePlus reDigit, RE.eol],
    reStr "download",
    reStr "untitled",
    reStr "image",
    reStr "photo",
    reStr "video",
    reStr "file",
    reSeq [reAtLeast 8 (RE.cls [.rng 'a' 'f', .rng '0' '9']), RE.eol],
    reSeq [reAtLeast 20 (RE.cls [.rng 'a' 'z', .rng '0' '9', .one '_',
                                 .one '-']), RE.eol] ]

/-- The date part of a parsed `datetime` (the extracted dates carry no
time-of-day). Ordered lexicographically, as `datetime` is. -/
structure PyDate where
  year : Nat
  month : Nat
  day : Nat
  deriving DecidableEq, Repr

/-- Injective numeric key realising the lexicographic `datetime` order for
the field ranges `strptime` can produce (month and day below 100). -/
def PyDate.key (d : PyDate) : Nat :=
  d.year * 10000 + d.month * 100 + d.day

/-- Gregorian leap year, as `datetime` validates it. -/
def pyIsLeap (y : Nat) : Bool :=
  y % 4 == 0 && (!(y % 100 == 0) || y % 400 == 0)

/-- Days in a month, as `datetime` validates day-of-month. -/
def pyDaysInMonth (y m : Nat) : Nat :=
  if m == 2 then (if pyIsLeap y then 29 else 28)
  else if m == 4 || m == 6 || m == 9 || m == 11 then 30
  else 31

/-- Up to `k` leading ASCII digits of `cs`, with the remainder. -/
def takeDigitsUpTo : Nat → List Char → List Char × List Char
  | 0, cs => ([], cs)
  | _ + 1, [] => ([], [])
  | k + 1, c :: cs =>
      if c.isDigit then
        let p := takeDigitsUpTo k cs
        (c :: p.1, p.2)
      else ([], c :: cs)

/-- Numeric value of a digit string. -/
def digitsToNat (cs : List Char) : Nat :=
  cs.foldl (fun acc c => acc * 10 + (c.toNat - 48)) 0

/-- At least one and at most `maxW` leading digits, as a number plus the
remainder (the `\d{1,maxW}` component regexes of `_strptime`). -/
def parseIntPart (maxW : Nat) (ds : List Char) : Option (Nat × List Char) :=
  let p := takeDigitsUpTo maxW ds
  if p.1.isEmpty then none else some (digitsToNat p.1, p.2)

/-- Consume an expected literal character. -/
def expectChar (c : Char) : List Char → Option (List Char)
  | x :: rest => if x == c then some rest else none
  | [] => none

/-- `datetime` constructor validation: year 1..9999, month 1..12, day within
the month. -/
def validDate (y m d : Nat) : Option PyDate :=
  if 1 ≤ y && y ≤ 9999 && 1 ≤ m && m ≤ 12 && 1 ≤ d && d ≤ pyDaysInMonth y m
  then some ⟨y, m, d⟩ else none

/-- A `%b` month abbreviation at the start of the input, case-insensitively,
with the remainder. -/
def parseMonthAbbr (ds : List Char) : Option (Nat × List Char) :=
  match ds with
  | a :: b :: c :: rest =>
      (monthAbbrs.findIdx? fun mname =>
          mname.toLower == String.mk [a.toLower, b.toLower, c.toLower]).map
        fun i => (i + 1, rest)
  | _ => none

/-- `datetime.strptime(date_str, fmt)` restricted to the five formats of
`DATE_PATTERNS`, as a partial function (`none` is the `ValueError`). Each
numeric directive takes its digits greedily left to right; on the strings the
date extractor constructs (regex groups of fixed width joined back together)
this equals CPython `_strptime`, which also requires full consumption of the
input and validates the field ranges through the `datetime` constructor. -/
def pyStrptimeCore (ds : List Char) (fmt : DateFmt) : Option PyDate :=
  match fmt with
  | .YmdDash => do
      let (y, r1) ← parseIntPart 4 ds
      let r2 ← expectChar '-' r1
      let (m, r3) ← parseIntPart 2 r2
      let r4 ← expectChar '-' r3
      let (d, r5) ← parseIntPart 2 r4
      if r5.isEmpty then validDate y m d else none
  | .Ymd => do
      let (y, r1) ← parseIntPart 4 ds
      let (m, r2) ← parseIntPart 2 r1
      let (d, r3) ← parseIntPart 2 r2
      if r3.isEmpty then validDate y m d else none
  | .mdYDash => do
      let (m, r1) ← parseIntPart 2 ds
      let r2 ← expectChar '-' r1
      let (d, r3) ← parseIntPart 2 r2
      let r4 ← expectChar '-' r3
      let (y, r5) ← parseIntPart 4 r4
      if r5.isEmpty then validDate y m d else none
  | .mdY => do
      let (m, r1) ← parseIntPart 2 ds
      let (d, r2) ← parseIntPart 2 r1
      let (y, r3) ← parseIntPart 4 r2
      if r3.isEmpty then validDate y m d else none
  | .bdYDash => do
      let (m, r1) ← parseMonthAbbr ds
      let r2 ← expectChar '-' r1
      let (d, r3) ← parseIntPart 2 r2
      let r4 ← expectChar '-' r3
      let (y, r5) ← parseIntPart 4 r4
      if r5.isEmpty then validDate y m d else none

/-- `datetime.strptime` with its `ValueError` made explicit. -/
def pyStrptimeDate (ds : List Char) (fmt : DateFmt) : Except PyExc PyDate :=
  match pyStrptimeCore ds fmt with
  | some d => .ok d
  | none => .error .valueError

/-- The `date_str` that `_extract_dates` reconstructs from the match groups
before calling `strptime`: hyphen-joined groups for the `%b` format and the
two dashed numeric formats, plain concatenation (`''.join(match.groups())`)
for the compact formats. -/
def buildDateStr (fmt : DateFmt) (caps : List String) : List Char :=
  let g1 := (caps.getD 0 "").data
  let g2 := (caps.getD 1 "").data
  let g3 := (caps.getD 2 "").data
  match fmt with
  | .YmdDash => g1 ++ '-' :: g2 ++ '-' :: g3
  | .Ymd => g1 ++ g2 ++ g3
  | .mdYDash => g1 ++ '-' :: g2 ++ '-' :: g3
  | .mdY => g1 ++ g2 ++ g3
  | .bdYDash => g1 ++ '-' :: g2 ++ '-' :: g3

/-- The inner match loop of `NameParser._extract_dates` for one pattern:
every match is parsed with `strptime`; a `ValueError` is caught and the
match skipped (`except ValueError: continue`); any other exception would
propagate. -/
def extractDatesOnePat (name : List Char) (pat : RE) (fmt : DateFmt)
    (dates : List PyDate) : Except PyExc (List PyDate) :=
  (pyFindIter true pat name).foldlM
    (fun acc m =>
      match pyStrptimeDate (buildDateStr fmt m.2.2) fmt with
      | .ok d => .ok (acc ++ [d])
      | .error .valueError => .ok acc
      | .error e => .error e)
    dates

/-- `NameParser._extract_dates`: all five patterns in order (with
`re.IGNORECASE`), accumulating the valid dates. -/
def extract_dates (name : String) : Except PyExc (List PyDate) :=
  datePatterns.foldlM
    (fun acc pf => extractDatesOnePat name.data pf.1 pf.2 acc) []

/-- `NameParser._remove_dates`: sequential `re.sub(pattern, '', name)` over
the date patterns (with `re.IGNORECASE`). -/
def remove_dates (name : String) : String :=
  datePatterns.foldl (fun n pf => pySubStr true pf.1 n) name

/-- Normalisation of one time match to `HH-MM-SS`: three groups are joined
with hyphens; the compact single group is sliced when it has six characters
and skipped otherwise. -/
def timeOfMatch (caps : List String) : Option String :=
  if caps.length == 3 then
    some ((caps.getD 0 "") ++ "-" ++ (caps.getD 1 "") ++ "-" ++ (caps.getD 2 ""))
  else
    let tc := (caps.getD 0 "").data
    if tc.length == 6 then
      some (String.mk (tc.take 2) ++ "-" ++ String.mk ((tc.drop 2).take 2)
        ++ "-" ++ String.mk ((tc.drop 4).take 2))
    else none

/-- `NameParser._extract_times`: both time patterns in order (no flags). -/
def extract_times (name : String) : List String :=
  timePatterns.foldl
    (fun ts pat =>
      (pyFindIter false pat name.data).foldl
        (fun ts m =>
          match timeOfMatch m.2.2 with
          | some t => ts ++ [t]
          | none => ts)
        ts)
    []

/-- `NameParser._remove_times`: sequential `re.sub(pattern, '', name)` over
the time patterns (no flags). -/
def remove_times (name : String) : String :=
  timePatterns.foldl (fun n pat => pySubStr false pat n) name

/-- Python `str.strip()` whitespace set (ASCII part; the filenames the
claims quantify over are handled identically by the full Unicode set). -/
def pyIsSpaceChar (c : Char) : Bool :=
  c == ' ' || c == '\t' || c == '\n' || c == '\r' || c == '\x0b' || c == '\x0c'

/-- `str.strip()`. -/
def pyStrip (s : List Char) : List Char :=
  ((s.dropWhile pyIsSpaceChar).reverse.dropWhile pyIsSpaceChar).reverse

/-- `str.isdigit()` (ASCII digits; nonempty and all digits). -/
def pyIsDigitStr (s : List Char) : Bool :=
  !s.isEmpty && s.all Char.isDigit

/-- `[a-zA-Z]{2,}`: at least two consecutive letters. -/
def reLetters2 : RE :=
  reAtLeast 2 (RE.cls [.rng 'a' 'z', .rng 'A' 'Z'])

/-- `NameParser._remove_copy_notations`: sequential `re.sub(pattern, '',
name, flags=IGNORECASE)` over `COPY_PATTERNS`, then `strip()`. -/
def remove_copy_notations (name : String) : String :=
  String.mk (pyStrip (copyPatterns.foldl (fun n pat => pySubStr true pat n) name).data)

/-- `NameParser._split_extension`: split at the last `.` when present, the
extension keeping its dot. -/
def split_extension (filename : String) : String × String :=
  let cs := filename.data
  if cs.contains '.' then
    let ext := (cs.reverse.takeWhile (fun c => !(c == '.'))).reverse
    let name := cs.take (cs.length - ext.length - 1)
    (String.mk name, String.mk ('.' :: ext))
  else (filename, "")

/-- `NameParser._extract_descriptive_text`: split on `[_\-\s.]+` runs, strip
each word, and keep the words that are nonempty, not all digits, at least two
characters long, and contain two consecutive letters. -/
def extract_descriptive_text (name : String) : List String :=
  let words := pySplit false (rePlus reSepCls) name.data
  words.foldl
    (fun acc w =>
      let w := pyStrip w
      if w.isEmpty then acc
      else if pyIsDigitStr w then acc
      else if w.length < 2 then acc
      else if pySearch false reLetters2 w then acc ++ [String.mk w]
      else acc)
    []

/-- `NameParser._is_generic`: a name with descriptive words is never generic;
otherwise the separators are stripped, the remainder lowercased, and the
generic patterns tried with `re.match` (IGNORECASE). -/
def is_generic (name : String) (descriptive_text : List String) : Bool :=
  if !descriptive_text.isEmpty then false
  else
    let name_clean := (pySub false (rePlus reSepCls) name.data).map Char.toLower
    genericPatterns.any fun pat => pyMatchStart true pat name_clean

/-- `NameComponents` (dataclass in actions/name_merger.py). -/
structure NameComponents where
  dates : List PyDate
  times : List String
  descriptive_text : List String
  extension : String
  is_generic : Bool
  deriving DecidableEq, Repr

/-- `NameParser.parse`: extension split, copy-notation removal, date and
time extraction, date/time removal, descriptive-text extraction, generic
check. The only fallible step is date extraction (whose `ValueError`s are
caught inside it). -/
def NameParser_parse (filename : String) : Except PyExc NameComponents :=
  let ne := split_extension filename
  let name := remove_copy_notations ne.1
  match extract_dates name with
  | .error e => .error e
  | .ok dates =>
      let times := extract_times name
      let name_without_datetime := remove_times (remove_dates name)
      let descriptive_text := extract_descriptive_text name_without_datetime
      .ok { dates := dates, times := times,
            descriptive_text := descriptive_text, extension := ne.2,
            is_generic := is_generic name_without_datetime descriptive_text }

/-- Python `min(dates)` over `datetime`s: the first minimum (strictly
smaller replaces), `none` on an empty list. -/
def pyMinDate : List PyDate → Option PyDate
  | [] => none
  | d :: ds =>
      some (ds.foldl (fun acc x => if x.key < acc.key then x else acc) d)

/-- Zero-padded two-digit field of `strftime` (`%m`, `%d`). -/
def pad2 (n : Nat) : String :=
  if n < 10 then "0" ++ toString n else toString n

/-- `chosen_date.strftime('%Y-%m-%d')`. glibc prints `%Y` without padding
(years below 1000 appear unpadded); `%m` and `%d` are zero-padded. -/
def strftimeYmd (d : PyDate) : String :=
  toString d.year ++ "-" ++ pad2 d.month ++ "-" ++ pad2 d.day

/-- The case-insensitive order-preserving word deduplication of
`merge_names` (`seen_lower` set, first spelling retained). The seen set is
kept as a list. -/
def dedupWords : List String → List String → List String
  | [], _ => []
  | w :: rest, seen =>
      let wl := pyLowerAscii w
      if seen.contains wl then dedupWords rest seen
      else w :: dedupWords rest (seen ++ [wl])

/-- The human-readable size suffix appended by `merge_names` when a truthy
`file_size` is supplied: integer-truncated `B`/`KB`/`MB`/`GB`. Python `//`
and `Int` division agree on the non-negative quotients taken here. -/
def sizeSuffix (file_size : Int) : String :=
  if file_size < 1024 then toString file_size ++ "B"
  else if file_size < 1024 * 1024 then
    toString (file_size / 1024) ++ "KB"
  else if file_size < 1024 * 1024 * 1024 then
    toString (file_size / (1024 * 1024)) ++ "MB"
  else toString (file_size / (1024 * 1024 * 1024)) ++ "GB"

/-- `NameMerger.merge_names(filenames, file_size)`: empty input yields `""`,
a single name is returned unchanged; otherwise all names are parsed, the
first non-empty extension, the oldest date, the first time token and the
case-insensitively deduplicated word union are assembled hyphen-joined
(falling back to the first non-generic, else the very first, original name
when nothing was extracted), a size suffix is appended for a truthy
`file_size`, and the extension is appended. -/
def NameMerger_merge_names (filenames : List String) (file_size : Option Int) :
    Except PyExc String :=
  match filenames with
  | [] => .ok ""
  | [only] => .ok only
  | _ =>
    match filenames.mapM NameParser_parse with
    | .error e => .error e
    | .ok components =>
      let extension :=
        ((components.find? fun c => !(c.extension == "")).map (·.extension)).getD ""
      let all_dates := (components.map (·.dates)).flatten
      let chosen_date := pyMinDate all_dates
      let all_times := (components.map (·.times)).flatten
      let chosen_time := all_times.head?
      let all_text := dedupWords ((components.map (·.descriptive_text)).flatten) []
      let parts :=
        (match chosen_date with
         | some d =>
             let date_str := strftimeYmd d
             let date_str :=
               match chosen_time with
               | some t => if t == "" then date_str else date_str ++ "-" ++ t
               | none => date_str
             [date_str]
         | none => []) ++ all_text
      if parts.isEmpty then
        match (components.zip filenames).find? (fun p => !p.1.is_generic) with
        | some p => .ok p.2
        | none => .ok (filenames.headD "")
      else
        let merged := String.intercalate "-" parts
        let merged :=
          match file_size with
          | some n => if n == 0 then merged else merged ++ "-" ++ sizeSuffix n
          | none => merged
        .ok (merged ++ extension)

/-! ## Helper lemmas -/

/-- Filtering a list that contains an element failing the predicate yields a
strictly shorter list. -/
theorem length_filter_lt_of_mem_not {α : Type} {l : List α} {p : α → Bool}
    {a : α} (ha : a ∈ l) (hpa : p a = false) :
    (l.filter p).length < l.length := by
  induction l with
  | nil => cases ha
  | cons b t ih =>
      rcases List.mem_cons.1 ha with rfl | hat
      · have he : (a :: t).filter p = t.filter p := by
          simp [List.filter_cons, hpa]
        rw [he]
        exact Nat.lt_succ_of_le (List.length_filter_le _ _)
      · cases hb : p b
        · have he : (b :: t).filter p = t.filter p := by
            simp [List.filter_cons, hb]
          rw [he]
          exact Nat.lt_succ_of_le (Nat.le_of_lt (ih hat))
        · have he : (b :: t).filter p = b :: t.filter p := by
            simp [List.filter_cons, hb]
          rw [he, List.length_cons, List.length_cons]
          exact Nat.succ_lt_succ (ih hat)

/-- The fold inside `pyPick` stays within the candidates. -/
theorem foldl_pick_mem (better : FileRecord → FileRecord → Bool)
    (l : List FileRecord) (a : FileRecord) :
    l.foldl (fun acc x => if better x acc then x else acc) a ∈ a :: l := by
  induction l generalizing a with
  | nil => exact List.mem_cons_self a []
  | cons b t ih =>
      rw [List.foldl_cons]
      cases h : better b a
      · rw [if_neg (by simp [h])]
        rcases List.mem_cons.1 (ih a) with h' | h'
        · rw [h']; exact List.mem_cons_self _ _
        · exact List.mem_cons_of_mem _ (List.mem_cons_of_mem _ h')
      · rw [if_pos (by simp [h])]
        rcases List.mem_cons.1 (ih b) with h' | h'
        · rw [h']; exact List.mem_cons_of_mem _ (List.mem_cons_self _ _)
        · exact List.mem_cons_of_mem _ (List.mem_cons_of_mem _ h')

/-- `pyPick` returns a member of the list. -/
theorem pyPick_mem {better : FileRecord → FileRecord → Bool}
    {l : List FileRecord} {x : FileRecord} (h : pyPick better l = some x) :
    x ∈ l := by
  cases l with
  | nil => cases h
  | cons f fs =>
      simp only [pyPick, Option.some.injEq] at h
      exact h ▸ foldl_pick_mem better fs f

/-- A successful keep-path override returns strictly fewer files than the
group holds. -/
theorem keepPathOverride_length_lt {g : DuplicateGroup} {kp : Option String}
    {l : List FileRecord} (h : keepPathOverride g kp = some l) :
    l.length < g.files.length := by
  unfold keepPathOverride at h
  split at h
  · dsimp only at h
    by_cases hne :
        (g.files.filter (fun f => fnmatchStr f.path (kp.getD ""))).isEmpty = true
    · rw [if_pos hne] at h; cases h
    · rw [if_neg hne] at h
      injection h with h
      subst h
      have hex : ∃ x ∈ g.files, fnmatchStr x.path (kp.getD "") = true := by
        simpa using hne
      rcases hex with ⟨a, hmem, hmatch⟩
      exact length_filter_lt_of_mem_not hmem (by simp [hmatch])
  · cases h

/-- The keep-newest-style strategy body (shared by newest, oldest, shortest,
longest, deepest and merge-names): removing the picked member's id filters
out at least that member. -/
theorem pick_body_length_lt {files : List FileRecord}
    {chosen : FileRecord} (hmem : chosen ∈ files) :
    (files.filter fun f => !(f.file_id == chosen.file_id)).length
      < files.length :=
  length_filter_lt_of_mem_not hmem (by simp)

/-- All six pick-and-filter strategies (newest, oldest, shortest, longest,
deepest, merge-names) succeed on a nonempty group and return strictly fewer
files than the group holds, for every keep-path argument. -/
theorem pickStyle_select_sound (g : DuplicateGroup) (kp : Option String)
    (better : FileRecord → FileRecord → Bool) (h1 : 1 ≤ g.files.length) :
    ∃ l,
      (match keepPathOverride g kp with
       | some l => some l
       | none => (pyPick better g.files).map fun chosen =>
           g.files.filter fun f => !(f.file_id == chosen.file_id)) = some l ∧
      l.length < g.files.length := by
  cases hov : keepPathOverride g kp with
  | some l' => exact ⟨l', by simp [hov], keepPathOverride_length_lt hov⟩
  | none =>
      obtain ⟨c, hc⟩ : ∃ c, pyPick better g.files = some c := by
        cases hf : g.files with
        | nil => rw [hf] at h1; simp at h1
        | cons f fs => exact ⟨_, rfl⟩
      exact ⟨g.files.filter fun f => !(f.file_id == c.file_id),
        by simp [hov, hc], pick_body_length_lt (pyPick_mem hc)⟩

/-- The keep-path strategy also returns strictly fewer files than a nonempty
group holds, in all three of its branches. -/
theorem keepPathSelect_sound (g : DuplicateGroup) (kp : Option String)
    (h1 : 1 ≤ g.files.length) :
    ∃ l, keepPathSelect g kp = some l ∧ l.length < g.files.length := by
  have htail : g.files.tail.length < g.files.length := by
    rw [List.length_tail]; omega
  unfold keepPathSelect
  by_cases ht : pyTruthyStr kp = true
  · rw [if_neg (by simp [ht])]
    dsimp only
    by_cases hne :
        (g.files.filter (fun f => fnmatchStr f.path (kp.getD ""))).isEmpty = true
    · rw [if_pos hne]
      exact ⟨_, rfl, htail⟩
    · rw [if_neg hne]
      have hex : ∃ x ∈ g.files, fnmatchStr x.path (kp.getD "") = true := by
        simpa using hne
      rcases hex with ⟨a, hmem, hmatch⟩
      exact ⟨_, rfl, length_filter_lt_of_mem_not hmem (by simp [hmatch])⟩
  · rw [if_pos (by simpa using ht)]
    exact ⟨_, rfl, htail⟩

/-- C1: for every deletion strategy in the fixed set, every duplicate group
with at least 2 members having pairwise-distinct file ids, and every
optional keep_path glob, `select_files_to_trash` returns normally and the
returned list is strictly shorter than the group's count — it never includes
every member, in every branch including the keep-pattern fallback
branches. -/
theorem select_files_to_trash_never_all (s : StrategyName) (g : DuplicateGroup)
    (keep_path : Option String) (hcount : 2 ≤ g.count)
    (_hids : (g.files.map FileRecord.file_id).Nodup) :
    ∃ l, select_files_to_trash s g keep_path = some l ∧ l.length < g.count := by
  have h1 : 1 ≤ g.files.length := le_trans (by norm_num) hcount
  cases s
  case newest => exact pickStyle_select_sound g keep_path _ h1
  case oldest => exact pickStyle_select_sound g keep_path _ h1
  case shortest => exact pickStyle_select_sound g keep_path _ h1
  case longest => exact pickStyle_select_sound g keep_path _ h1
  case deepest => exact pickStyle_select_sound g keep_path _ h1
  case path => exact keepPathSelect_sound g keep_path h1
  case mergeNames => exact pickStyle_select_sound g keep_path _ h1

/-- Concrete two-member fixture used by the witnesses. -/
def witnessRecA : FileRecord :=
  { file_id := "idA", name := "a.txt", size := 1024, md5 := some "m0",
    mime_type := "text/plain", created_time := 0, modified_time := 1,
    path := "/x/a.txt" }

/-- Second member of the witness fixture, newer and deeper. -/
def witnessRecB : FileRecord :=
  { file_id := "idB", name := "b.txt", size := 1024, md5 := some "m0",
    mime_type := "text/plain", created_time := 0, modified_time := 5,
    path := "/x/y/b.txt" }

/-- Witness duplicate group. -/
def witnessGroup : DuplicateGroup :=
  { group_id := 1, files := [witnessRecA, witnessRecB], size := 1024,
    md5 := some "m0" }

/-- Witness for C1: the theorem applied to the concrete two-member group
with the newest strategy and no keep pattern. -/
theorem select_files_to_trash_never_all_witness :
    2 ≤ witnessGroup.count ∧
    (witnessGroup.files.map FileRecord.file_id).Nodup ∧
    ∃ l, select_files_to_trash .newest witnessGroup none = some l ∧
      l.length < witnessGroup.count :=
  ⟨by decide, by decide,
    select_files_to_trash_never_all .newest witnessGroup none (by decide)
      (by decide)⟩

/-- When a non-empty keep pattern matches every member of a nonempty group,
the keep-path override block returns the empty list. -/
theorem keepPathOverride_all_match {g : DuplicateGroup} {pat : String}
    (hpat : pat ≠ "") (hne : g.files ≠ [])
    (hall : ∀ f ∈ g.files, fnmatchStr f.path pat = true) :
    keepPathOverride g (some pat) = some [] := by
  unfold keepPathOverride
  rw [if_pos (by simp [pyTruthyStr, hpat])]
  dsimp only [Option.getD]
  have hfilter : g.files.filter (fun f => fnmatchStr f.path pat) = g.files :=
    List.filter_eq_self.mpr hall
  rw [hfilter, if_neg (by simpa [List.isEmpty_iff] using hne)]
  have hnil : g.files.filter (fun f => !(fnmatchStr f.path pat)) = [] := by
    simp only [List.filter_eq_nil_iff]
    intro a ha
    simp [hall a ha]
  rw [hnil]

/-- C10 amended: for every strategy, a *non-empty* keep_path glob that
matches the path of every member of a nonempty duplicate group makes
`select_files_to_trash` return the empty list — nothing is trashed, and the
strategy's own selection rule is never consulted. (The claim as stated,
without "non-empty", is refuted by the empty glob, which Python treats as
falsy.) -/
theorem keep_path_matches_all_selects_nothing (s : StrategyName)
    (g : DuplicateGroup) (pat : String) (hpat : pat ≠ "")
    (hne : g.files ≠ [])
    (hall : ∀ f ∈ g.files, fnmatchStr f.path pat = true) :
    select_files_to_trash s g (some pat) = some [] := by
  have hov := keepPathOverride_all_match hpat hne hall
  have hpathcase : keepPathSelect g (some pat) = some [] := by
    unfold keepPathSelect
    rw [if_neg (by simp [pyTruthyStr, hpat])]
    dsimp only [Option.getD]
    have hfilter : g.files.filter (fun f => fnmatchStr f.path pat) = g.files :=
      List.filter_eq_self.mpr hall
    rw [hfilter, if_neg (by simpa [List.isEmpty_iff] using hne)]
    have hnil : g.files.filter (fun f => !(fnmatchStr f.path pat)) = [] := by
      simp only [List.filter_eq_nil_iff]
      intro a ha
      simp [hall a ha]
    rw [hnil]
  cases s
  case newest => simp [select_files_to_trash, keepNewestSelect, hov]
  case oldest => simp [select_files_to_trash, keepOldestSelect, hov]
  case shortest => simp [select_files_to_trash, keepShortestSelect, hov]
  case longest => simp [select_files_to_trash, keepLongestSelect, hov]
  case deepest => simp [select_files_to_trash, keepDeepestSelect, hov]
  case path => exact hpathcase
  case mergeNames => simp [select_files_to_trash, mergeNamesSelect, hov]

/-- First member of the C10 counterexample group: empty path. -/
def c10RecA : FileRecord :=
  { file_id := "cxA", name := "a", size := 10, md5 := some "m",
    mime_type := "text/plain", created_time := 0, modified_time := 0,
    path := "" }

/-- Second member of the C10 counterexample group: empty path, newer. -/
def c10RecB : FileRecord :=
  { file_id := "cxB", name := "b", size := 10, md5 := some "m",
    mime_type := "text/plain", created_time := 0, modified_time := 1,
    path := "" }

/-- C10 counterexample group. -/
def c10Group : DuplicateGroup :=
  { group_id := 1, files := [c10RecA, c10RecB], size := 10, md5 := some "m" }

/-- C10 counterexample: the empty glob is a supplied keep_path that matches
the path of every member of this two-member group (`fnmatch("", "")` is
true), yet `select_files_to_trash` does not return the empty list — Python's
`if keep_path:` treats the empty string as absent and the newest-strategy
rule runs instead. -/
theorem keep_path_matches_all_counterexample :
    (∀ f ∈ c10Group.files, fnmatchStr f.path "" = true) ∧
    select_files_to_trash .newest c10Group (some "") ≠ some [] := by
  constructor
  · decide
  · decide

/-- Witness for the amended C10: the glob `*` is non-empty and matches both
members of the witness group; the oldest strategy then trashes nothing. -/
theorem keep_path_matches_all_selects_nothing_witness :
    ("*" : String) ≠ "" ∧ witnessGroup.files ≠ [] ∧
    (∀ f ∈ witnessGroup.files, fnmatchStr f.path "*" = true) ∧
    select_files_to_trash .oldest witnessGroup (some "*") = some [] :=
  ⟨by decide, by decide, by decide,
   keep_path_matches_all_selects_nothing .oldest witnessGroup "*" (by decide)
     (by decide) (by decide)⟩

/-- Association-list lookup succeeds exactly on the stored keys. -/
theorem lookup_ok_iff (k : String) (tbl : List (String × StrategyName)) :
    (∃ v, tbl.lookup k = some v) ↔ k ∈ tbl.map Prod.fst := by
  induction tbl with
  | nil => simp [List.lookup]
  | cons p t ih =>
      cases p with
      | mk a b =>
          by_cases h : k = a
          · subst h
            simp [List.lookup]
          · have hbeq : (k == a) = false := by simp [h]
            simp [List.lookup, hbeq, ih, h]

/-- C9 counterexample: `"NEWEST"` is not one of the seven strategy names,
yet `get_strategy` returns a strategy for it rather than raising
`ValueError` — the lookup is on the lowercased name. -/
theorem get_strategy_counterexample :
    get_strategy "NEWEST" = .ok .newest ∧
    "NEWEST" ∉ strategyTable.map Prod.fst := by
  constructor
  · decide
  · decide

/-- C9 amended: `get_strategy(name)` returns a strategy exactly when
`name.lower()` is in the fixed set of the seven strategy names, and raises
`ValueError` (before any mutation — the function is pure) for every other
name. -/
theorem get_strategy_ok_iff (name : String) :
    ((∃ s, get_strategy name = .ok s) ↔
      pyLowerAscii name ∈ strategyTable.map Prod.fst) ∧
    (pyLowerAscii name ∉ strategyTable.map Prod.fst →
      get_strategy name = .error .valueError) := by
  have h := lookup_ok_iff (pyLowerAscii name) strategyTable
  constructor
  · constructor
    · rintro ⟨s, hs⟩
      apply h.mp
      unfold get_strategy at hs
      cases hl : strategyTable.lookup (pyLowerAscii name) with
      | some v => exact ⟨v, rfl⟩
      | none => rw [hl] at hs; cases hs
    · intro hmem
      rcases h.mpr hmem with ⟨v, hv⟩
      exact ⟨v, by unfold get_strategy; rw [hv]⟩
  · intro hnot
    unfold get_strategy
    cases hl : strategyTable.lookup (pyLowerAscii name) with
    | some v => exact absurd (h.mp ⟨v, hl⟩) hnot
    | none => rfl

/-- The undecorated trash body either leaves the trace unchanged (dry run)
or appends exactly one `trashed=true` update for the requested id, whatever
the call outcome. -/
theorem trash_file_body_trace_eq (svc : Nat → CallOutcome) (file_id : String)
    (dry_run : Bool) (st : RunState) :
    (trash_file_body svc file_id dry_run st).2.trace = st.trace ∨
    (trash_file_body svc file_id dry_run st).2.trace
      = st.trace ++ [RemoteOp.filesUpdateTrashed file_id true] := by
  unfold trash_file_body
  by_cases hd : dry_run = true
  · rw [if_pos hd]; exact Or.inl rfl
  · rw [if_neg hd]
    dsimp only
    cases hsvc : svc st.calls
    · exact Or.inr rfl
    · rename_i status
      dsimp only
      by_cases h404 : (status == 404) = true
      · rw [if_pos h404]; exact Or.inr rfl
      · rw [if_neg h404]; exact Or.inr rfl
    · exact Or.inr rfl

/-- Every operation the undecorated trash body adds to the trace is a
`trashed=true` update for the requested id. -/
theorem trash_file_body_trace (svc : Nat → CallOutcome) (file_id : String)
    (dry_run : Bool) (st : RunState) :
    ∀ op ∈ (trash_file_body svc file_id dry_run st).2.trace,
      op ∈ st.trace ∨ op = RemoteOp.filesUpdateTrashed file_id true := by
  intro op hop
  rcases trash_file_body_trace_eq svc file_id dry_run st with he | he <;>
    rw [he] at hop
  · exact Or.inl hop
  · rcases List.mem_append.1 hop with h | h
    · exact Or.inl h
    · exact Or.inr (by simpa using h)

/-- The decorated trash call only ever adds `trashed=true` updates for the
requested id to the trace, whatever the service behaviour, the attempt count
and the prior state. -/
theorem backoffRun_trace (svc : Nat → CallOutcome) (file_id : String)
    (dry_run : Bool) :
    ∀ (fuel attempt delay : Nat) (st : RunState),
      ∀ op ∈ (backoffRun svc file_id dry_run fuel attempt delay st).2.trace,
        op ∈ st.trace ∨ op = RemoteOp.filesUpdateTrashed file_id true := by
  intro fuel
  induction fuel with
  | zero => intro attempt delay st op hop; exact Or.inl hop
  | succ fuel ih =>
      intro attempt delay st op hop
      rw [backoffRun] at hop
      rcases hbody : trash_file_body svc file_id dry_run st with ⟨r, st'⟩
      have hbt := trash_file_body_trace svc file_id dry_run st
      rw [hbody] at hbt hop
      dsimp only at hop
      cases r with
      | ok v => exact hbt op hop
      | error e =>
          cases e with
          | httpError status =>
              dsimp only at hop
              by_cases hc1 : (status < 500 && !(status == 429)) = true
              · rw [if_pos hc1] at hop
                exact hbt op hop
              · rw [if_neg hc1] at hop
                by_cases hc2 : (attempt == backoffMaxRetries) = true
                · rw [if_pos hc2] at hop
                  by_cases hc3 : (status == 429) = true
                  · rw [if_pos hc3] at hop
                    exact hbt op hop
                  · rw [if_neg hc3] at hop
                    exact hbt op hop
                · rw [if_neg hc2] at hop
                  rcases ih (attempt + 1) (min (delay * 2) 60)
                      { st' with sleeps := st'.sleeps ++ [delay] } op hop with
                    h | h
                  · exact hbt op h
                  · exact Or.inr h
          | zeroDivisionError => exact hbt op hop
          | valueError => exact hbt op hop
          | actionError => exact hbt op hop
          | rateLimitError => exact hbt op hop
          | otherError => exact hbt op hop

/-- The batch loop only ever adds `trashed=true` updates (for some id) to
the trace. -/
theorem trash_files_loop_trace (svc : Nat → CallOutcome) (dry_run : Bool) :
    ∀ (file_ids : List String) (results : List (String × Bool)) (st : RunState),
      ∀ op ∈ (trash_files_loop svc dry_run file_ids results st).2.trace,
        op ∈ st.trace ∨ ∃ fid, op = RemoteOp.filesUpdateTrashed fid true := by
  intro file_ids
  induction file_ids with
  | nil => intro results st op hop; exact Or.inl hop
  | cons fid rest ih =>
      intro results st op hop
      rw [trash_files_loop] at hop
      rcases hcall : trash_file svc fid dry_run st with ⟨r, st'⟩
      have htr : ∀ op ∈ st'.trace,
          op ∈ st.trace ∨ op = RemoteOp.filesUpdateTrashed fid true := by
        intro op hop'
        have := backoffRun_trace svc fid dry_run (backoffMaxRetries + 1) 0 1 st
        rw [show backoffRun svc fid dry_run (backoffMaxRetries + 1) 0 1 st
              = (r, st') from hcall] at this
        exact this op hop'
      rw [hcall] at hop
      dsimp only at hop
      cases r with
      | ok v =>
          rcases ih (results ++ [(fid, v)]) st' op hop with h | h
          · rcases htr op h with h' | h'
            · exact Or.inl h'
            · exact Or.inr ⟨fid, h'⟩
          · exact Or.inr h
      | error e =>
          cases e with
          | actionError =>
              rcases ih (results ++ [(fid, false)]) st' op hop with h | h
              · rcases htr op h with h' | h'
                · exact Or.inl h'
                · exact Or.inr ⟨fid, h'⟩
              · exact Or.inr h
          | zeroDivisionError =>
              rcases htr op hop with h | h
              · exact Or.inl h
              · exact Or.inr ⟨fid, h⟩
          | valueError =>
              rcases htr op hop with h | h
              · exact Or.inl h
              · exact Or.inr ⟨fid, h⟩
          | rateLimitError =>
              rcases htr op hop with h | h
              · exact Or.inl h
              · exact Or.inr ⟨fid, h⟩
          | httpError status =>
              rcases htr op hop with h | h
              · exact Or.inl h
              · exact Or.inr ⟨fid, h⟩
          | otherError =>
              rcases htr op hop with h | h
              · exact Or.inl h
              · exact Or.inr ⟨fid, h⟩

/-- C2: for every input (any file id or id batch, any service behaviour,
any sequence of outcomes, dry-run or live), `trash_file` and `trash_files`
never emit a permanent-delete operation: every remote operation in the
emitted trace is a `files().update(fileId, body={"trashed": True})` — in
particular it is never `files().delete`. -/
theorem trash_never_hard_deletes (svc : Nat → CallOutcome) (file_id : String)
    (file_ids : List String) (dry_run : Bool) :
    (∀ op ∈ (trash_file svc file_id dry_run {}).2.trace,
        ∃ fid, op = RemoteOp.filesUpdateTrashed fid true) ∧
    (∀ op ∈ (trash_files svc file_ids dry_run {}).2.trace,
        ∃ fid, op = RemoteOp.filesUpdateTrashed fid true) := by
  constructor
  · intro op hop
    rcases backoffRun_trace svc file_id dry_run (backoffMaxRetries + 1) 0 1
        {} op hop with h | h
    · cases h
    · exact ⟨file_id, h⟩
  · intro op hop
    rcases trash_files_loop_trace svc dry_run file_ids [] {} op hop with h | h
    · cases h
    · exact h

/-- Witness for C2: with an always-successful service, trashing one id emits
exactly one update, and the theorem instantiates on it. -/
theorem trash_never_hard_deletes_witness :
    RemoteOp.filesUpdateTrashed "f" true
        ∈ (trash_file (fun _ => CallOutcome.ok) "f" false {}).2.trace ∧
    ∃ fid, RemoteOp.filesUpdateTrashed "f" true
        = RemoteOp.filesUpdateTrashed fid true :=
  ⟨by decide,
   (trash_never_hard_deletes (fun _ => CallOutcome.ok) "f" [] false).1
     (RemoteOp.filesUpdateTrashed "f" true) (by decide)⟩

/-- C6 (code bug): a 404 does yield `ok false` with no exception, and the
batch records a per-id result without aborting — but a transient remote
failure (503, and likewise 429) is NOT retried: the inner
`except HttpError` converts it to `ActionError` before the
`exponential_backoff` wrapper can see a retryable `HttpError`, so exactly
one remote call is made, no backoff sleep happens, and the typed failure
surfaces immediately. -/
theorem trash_file_transient_error_not_retried :
    trash_file (fun _ => CallOutcome.httpErr 503) "f1" false {} =
      (Except.error PyExc.actionError,
       { calls := 1, trace := [RemoteOp.filesUpdateTrashed "f1" true],
         sleeps := [] }) ∧
    trash_file (fun _ => CallOutcome.httpErr 429) "f1" false {} =
      (Except.error PyExc.actionError,
       { calls := 1, trace := [RemoteOp.filesUpdateTrashed "f1" true],
         sleeps := [] }) ∧
    trash_file (fun _ => CallOutcome.httpErr 404) "f1" false {} =
      (Except.ok false,
       { calls := 1, trace := [RemoteOp.filesUpdateTrashed "f1" true],
         sleeps := [] }) ∧
    (trash_files (fun n => if n == 1 then CallOutcome.httpErr 503
        else CallOutcome.ok) ["a", "b", "c"] false {}).1 =
      Except.ok [("a", true), ("b", false), ("c", true)] := by
  refine ⟨by decide, by decide, by decide, by decide⟩

/-- C3 fixture: 10-byte file with checksum A. -/
def c3RecA : FileRecord :=
  { file_id := "fa", name := "a.bin", size := 10, md5 := some "A",
    mime_type := "application/octet-stream", created_time := 0,
    modified_time := 0, path := "/a.bin" }

/-- C3 fixture: 10-byte file with checksum B. -/
def c3RecB : FileRecord :=
  { file_id := "fb", name := "b.bin", size := 10, md5 := some "B",
    mime_type := "application/octet-stream", created_time := 0,
    modified_time := 0, path := "/b.bin" }

/-- C3 fixture: 20-byte file with checksum C. -/
def c3RecC : FileRecord :=
  { file_id := "fc", name := "c.bin", size := 20, md5 := some "C",
    mime_type := "application/octet-stream", created_time := 0,
    modified_time := 0, path := "/c.bin" }

/-- C3 index: sizes 10, 10, 20 with pairwise-distinct checksums. -/
def c3Index : List FileRecord := [c3RecA, c3RecB, c3RecC]

/-- C3 (code bug): on the size-collision index {10, 10, 20} with distinct
checksums, `detect_duplicates(0, false)` does not return the empty list —
the checksum pass finds no md5 group and its log line divides
`total_files` by `len(md5_groups) = 0`, raising `ZeroDivisionError`. -/
theorem detect_duplicates_size_collision_crashes :
    detect_duplicates c3Index 0 false = .error .zeroDivisionError := by
  decide

/-- C4 (code bug): whenever the size query yields zero candidate groups,
`detect_duplicates` raises `ZeroDivisionError` instead of returning the
empty list: the size pass logs the average group size, dividing by
`len(candidates) = 0` before the pipeline's empty-check can run. -/
theorem detect_duplicates_zero_size_groups_raises (index : List FileRecord)
    (min_size : Int) (byte_compare : Bool)
    (h : find_by_size index min_size = []) :
    detect_duplicates index min_size byte_compare
      = .error .zeroDivisionError := by
  unfold detect_duplicates sizePass_find_candidates
  rw [h]
  rfl

/-- Witness for C4's theorem: the empty index yields zero size groups and
the pipeline raises. -/
theorem detect_duplicates_zero_size_groups_raises_witness :
    find_by_size ([] : List FileRecord) 0 = [] ∧
    detect_duplicates ([] : List FileRecord) 0 false
      = .error .zeroDivisionError :=
  ⟨rfl, detect_duplicates_zero_size_groups_raises [] 0 false rfl⟩

/-- Insertion for the stable descending sort only rearranges; membership is
preserved. -/
theorem mem_insertByWastedDesc {x g : DuplicateGroup} {l : List DuplicateGroup}
    (h : x ∈ insertByWastedDesc g l) : x = g ∨ x ∈ l := by
  induction l with
  | nil =>
      unfold insertByWastedDesc at h
      exact Or.inl (by simpa using h)
  | cons b t ih =>
      unfold insertByWastedDesc at h
      split at h
      · rcases List.mem_cons.1 h with rfl | h'
        · exact Or.inr (List.mem_cons_self _ _)
        · rcases ih h' with h'' | h''
          · exact Or.inl h''
          · exact Or.inr (List.mem_cons_of_mem _ h'')
      · rcases List.mem_cons.1 h with rfl | h'
        · exact Or.inl rfl
        · exact Or.inr h'

/-- Members of the sorted output were in the input. -/
theorem mem_sortByWastedDesc {x : DuplicateGroup} {l : List DuplicateGroup}
    (hx : x ∈ sortByWastedDesc l) : x ∈ l := by
  suffices h : ∀ acc, x ∈ l.foldl (fun acc g => insertByWastedDesc g acc) acc →
      x ∈ acc ∨ x ∈ l by
    rcases h [] hx with h' | h'
    · cases h'
    · exact h'
  clear hx
  induction l with
  | nil => intro acc hacc; exact Or.inl hacc
  | cons g t ih =>
      intro acc hacc
      rw [List.foldl_cons] at hacc
      rcases ih (insertByWastedDesc g acc) hacc with h' | h'
      · rcases mem_insertByWastedDesc h' with rfl | h''
        · exact Or.inr (List.mem_cons_self _ _)
        · exact Or.inl h''
      · exact Or.inr (List.mem_cons_of_mem _ h')

/-- Every group `find_by_md5` returns has at least two member ids, and every
member id belongs to an index record bearing exactly the group's md5 key. -/
theorem find_by_md5_sound {index : List FileRecord} {md5s : List String}
    {m : String} {ids : List String}
    (h : (m, ids) ∈ find_by_md5 index md5s) :
    2 ≤ ids.length ∧
      ∀ id ∈ ids, ∃ r ∈ index, r.file_id = id ∧ r.md5 = some m := by
  unfold find_by_md5 at h
  rcases List.mem_filterMap.1 h with ⟨key, hkey, hfn⟩
  dsimp only at hfn
  split at hfn
  · rename_i hguard
    injection hfn with h1
    rw [Prod.mk.injEq] at h1
    obtain ⟨rfl, rfl⟩ := h1
    rw [Bool.and_eq_true] at hguard
    constructor
    · have hlen := of_decide_eq_true hguard.1
      omega
    · intro id hid
      rcases List.mem_map.1 hid with ⟨r, hr, hrid⟩
      have hr2 : r.md5 = some key := by
        simpa using (List.of_mem_filter hr)
      exact ⟨r, List.mem_of_mem_filter (List.mem_of_mem_filter hr), hrid, hr2⟩
  · cases hfn

/-- A successful checksum pass returns either nothing or exactly a
`find_by_md5` grouping. -/
theorem checksumPass_ok_shape {index : List FileRecord}
    {sgs : List (Int × List String)} {l : List (String × List String)}
    (h : checksumPass_find_duplicates index sgs = .ok l) :
    l = [] ∨ ∃ md5s, l = find_by_md5 index md5s := by
  unfold checksumPass_find_duplicates at h
  dsimp only at h
  split at h
  · exact Or.inl (by cases h; rfl)
  · split at h
    · exact Or.inl (by cases h; rfl)
    · split at h
      · cases h
      · exact Or.inr ⟨_, (Except.ok.inj h).symm⟩

/-- A successful detection run returns either nothing or the sorted assembly
of some `find_by_md5` grouping (the byte pass is the identity). -/
theorem detect_duplicates_ok_shape {index : List FileRecord} {min_size : Int}
    {bc : Bool} {groups : List DuplicateGroup}
    (h : detect_duplicates index min_size bc = .ok groups) :
    groups = [] ∨ ∃ md5s, groups = sortByWastedDesc
      (((find_by_md5 index md5s).enum).filterMap (assembleGroup index)) := by
  unfold detect_duplicates at h
  split at h
  · cases h
  · split at h
    · exact Or.inl (by cases h; rfl)
    · split at h
      · cases h
      · rename_i sgs hsg mgs hck
        split at h
        · exact Or.inl (by cases h; rfl)
        · rcases checksumPass_ok_shape hck with rfl | ⟨md5s, rfl⟩
          · exact Or.inl (by cases h; simp at *)
          · refine Or.inr ⟨md5s, ?_⟩
            cases h
            by_cases hbc : bc = true
            · rw [if_pos hbc]
              rfl
            · rw [if_neg hbc]

/-- Fetched records come from the index and carry a requested id. -/
theorem get_files_by_ids_mem {index : List FileRecord} {ids : List String}
    {f : FileRecord} (h : f ∈ get_files_by_ids index ids) :
    f ∈ index ∧ f.file_id ∈ ids := by
  unfold get_files_by_ids at h
  split at h
  · cases h
  · refine ⟨List.mem_of_mem_filter h, ?_⟩
    have := List.of_mem_filter h
    simpa using this

/-- C5 amended: for every index whose records have pairwise-distinct file
ids (the primary-key invariant of the files table), every group a
successful `detect_duplicates` run returns has count ≥ 2 and all of its
members bear the group's md5; all members additionally have the group's
recorded size provided no two index records share a checksum with different
sizes (the spec's FileRecord invariant). Only the same-size clause needs
that proviso: `find_by_md5` regroups by md5 over the whole table without a
size constraint, so an index violating the invariant yields a mixed-size
group (see the counterexample) — whose count and md5 clauses this theorem
still covers. -/
theorem detect_duplicates_groups_sound (index : List FileRecord)
    (min_size : Int) (byte_compare : Bool) (groups : List DuplicateGroup)
    (hnodup : (index.map FileRecord.file_id).Nodup)
    (hok : detect_duplicates index min_size byte_compare = .ok groups) :
    ∀ g ∈ groups, 2 ≤ g.count ∧
      (∀ f ∈ g.files, f.md5 = g.md5) ∧
      ((∀ r ∈ index, ∀ r' ∈ index,
          r.md5 = r'.md5 → r.md5 ≠ none → r.size = r'.size) →
        ∀ f ∈ g.files, f.size = g.size) := by
  intro g hg
  rcases detect_duplicates_ok_shape hok with rfl | ⟨md5s, rfl⟩
  · cases hg
  · have hg' := mem_sortByWastedDesc hg
    rcases List.mem_filterMap.1 hg' with ⟨gi, hgi, hasm⟩
    have hpair : gi.2 ∈ find_by_md5 index md5s := by
      have henum : (find_by_md5 index md5s).enum
          = (List.range (find_by_md5 index md5s).length).zip
              (find_by_md5 index md5s) := List.enum_eq_zip_range _
      rw [henum] at hgi
      rcases gi with ⟨i, pr⟩
      exact (List.of_mem_zip hgi).2
    rcases gi with ⟨i, m, ids⟩
    rcases find_by_md5_sound hpair with ⟨hlen, hids⟩
    unfold assembleGroup at hasm
    dsimp only at hasm
    split at hasm
    · rename_i f0 f1 rest heq
      injection hasm with hasm
      subst hasm
      have hmd5All : ∀ f ∈ get_files_by_ids index ids, f.md5 = some m := by
        intro f hf
        rcases get_files_by_ids_mem hf with ⟨hfin, hfid⟩
        rcases hids f.file_id hfid with ⟨r, hrin, hrid, hrmd5⟩
        have hfr : r = f :=
          List.inj_on_of_nodup_map hnodup hrin hfin hrid
        exact hfr ▸ hrmd5
      refine ⟨?_, ?_, ?_⟩
      · show 2 ≤ (get_files_by_ids index ids).length
        rw [heq]
        simp only [List.length_cons]
        omega
      · intro f hf
        exact hmd5All f hf
      · intro hfd f hf
        have hffetch : f ∈ get_files_by_ids index ids := hf
        rcases get_files_by_ids_mem hffetch with ⟨hfin, _⟩
        have hf0fetch : f0 ∈ get_files_by_ids index ids := by
          rw [heq]
          exact List.mem_cons_self _ _
        rcases get_files_by_ids_mem hf0fetch with ⟨hf0in, _⟩
        have hfmd5 : f.md5 = some m := hmd5All f hffetch
        have hf0md5 : f0.md5 = some m := hmd5All f0 hf0fetch
        exact hfd f hfin f0 hf0in (by rw [hfmd5, hf0md5]) (by rw [hfmd5]; simp)
    · cases hasm

/-- C5 counterexample fixture: 10-byte record with checksum X. -/
def c5RecA : FileRecord :=
  { file_id := "ga", name := "a.bin", size := 10, md5 := some "X",
    mime_type := "application/octet-stream", created_time := 0,
    modified_time := 0, path := "/a.bin" }

/-- C5 counterexample fixture: second 10-byte record with checksum X. -/
def c5RecB : FileRecord :=
  { file_id := "gb", name := "b.bin", size := 10, md5 := some "X",
    mime_type := "application/octet-stream", created_time := 0,
    modified_time := 0, path := "/b.bin" }

/-- C5 counterexample fixture: 20-byte record with the same checksum X. -/
def c5RecC : FileRecord :=
  { file_id := "gc", name := "c.bin", size := 20, md5 := some "X",
    mime_type := "application/octet-stream", created_time := 0,
    modified_time := 0, path := "/c.bin" }

/-- C5 counterexample index: the 20-byte record shares its checksum with the
two 10-byte records. -/
def c5Index : List FileRecord := [c5RecA, c5RecB, c5RecC]

/-- The groups `detect_duplicates` returns on `c5Index`. -/
def c5BadGroups : List DuplicateGroup :=
  [{ group_id := 1, files := [c5RecA, c5RecB, c5RecC], size := 10,
     md5 := some "X" }]

/-- C5 counterexample: on an index holding same-checksum records of
different sizes, `detect_duplicates` returns a group whose members do not
all have the group's recorded size — `find_by_md5` regroups by checksum over
the whole table with no size constraint, and the 20-byte record joins the
10-byte group. -/
theorem detect_duplicates_mixed_sizes_counterexample :
    detect_duplicates c5Index 0 false = .ok c5BadGroups ∧
    ¬ (∀ g ∈ c5BadGroups, ∀ f ∈ g.files, f.size = g.size) := by
  constructor
  · decide
  · decide

/-- Witness for the amended C5: the theorem applied to a well-formed
two-duplicate index. -/
theorem detect_duplicates_groups_sound_witness :
    (([witnessRecA, witnessRecB].map FileRecord.file_id).Nodup) ∧
    detect_duplicates [witnessRecA, witnessRecB] 0 false =
      .ok [{ group_id := 1, files := [witnessRecA, witnessRecB],
             size := 1024, md5 := some "m0" }] ∧
    (∀ g ∈ [({ group_id := 1, files := [witnessRecA, witnessRecB],
               size := 1024, md5 := some "m0" } : DuplicateGroup)],
      2 ≤ g.count ∧
      (∀ f ∈ g.files, f.md5 = g.md5) ∧
      ((∀ r ∈ [witnessRecA, witnessRecB], ∀ r' ∈ [witnessRecA, witnessRecB],
          r.md5 = r'.md5 → r.md5 ≠ none → r.size = r'.size) →
        ∀ f ∈ g.files, f.size = g.size)) :=
  ⟨by decide, by decide,
   detect_duplicates_groups_sound [witnessRecA, witnessRecB] 0 false _
     (by decide) (by decide)⟩

/-- `strptime` either succeeds or raises exactly `ValueError`. -/
theorem pyStrptimeDate_shape (ds : List Char) (fmt : DateFmt) :
    (∃ d, pyStrptimeDate ds fmt = .ok d) ∨
      pyStrptimeDate ds fmt = .error .valueError := by
  unfold pyStrptimeDate
  cases pyStrptimeCore ds fmt
  · exact Or.inr rfl
  · exact Or.inl ⟨_, rfl⟩

/-- A monadic fold whose step never raises never raises. -/
theorem foldlM_except_ok {α β : Type} (f : β → α → Except PyExc β)
    (hf : ∀ b a, ∃ b', f b a = .ok b') :
    ∀ (l : List α) (b : β), ∃ b', l.foldlM f b = .ok b' := by
  intro l
  induction l with
  | nil => intro b; exact ⟨b, rfl⟩
  | cons a t ih =>
      intro b
      rcases hf b a with ⟨b', hb⟩
      rcases ih b' with ⟨b'', hb''⟩
      refine ⟨b'', ?_⟩
      rw [List.foldlM_cons, hb]
      exact hb''

/-- The per-pattern date-extraction loop catches every `ValueError` from
`strptime` and therefore never raises. -/
theorem extractDatesOnePat_ok (name : List Char) (pat : RE) (fmt : DateFmt)
    (dates : List PyDate) :
    ∃ l, extractDatesOnePat name pat fmt dates = .ok l := by
  unfold extractDatesOnePat
  apply foldlM_except_ok
  intro acc m
  rcases pyStrptimeDate_shape (buildDateStr fmt m.2.2) fmt with ⟨d, hd⟩ | hd <;>
    rw [hd]
  · exact ⟨acc ++ [d], rfl⟩
  · exact ⟨acc, rfl⟩

/-- `_extract_dates` never raises. -/
theorem extract_dates_ok (name : String) :
    ∃ l, extract_dates name = .ok l := by
  unfold extract_dates
  apply foldlM_except_ok
  intro acc pf
  exact extractDatesOnePat_ok name.data pf.1 pf.2 acc

/-- `NameParser.parse` never raises. -/
theorem NameParser_parse_ok (filename : String) :
    ∃ c, NameParser_parse filename = .ok c := by
  unfold NameParser_parse
  dsimp only
  rcases extract_dates_ok
      (remove_copy_notations (split_extension filename).1) with ⟨dates, hd⟩
  rw [hd]
  exact ⟨_, rfl⟩

/-- Parsing a whole filename list never raises. -/
theorem mapM_parse_ok (fns : List String) :
    ∃ cs, fns.mapM NameParser_parse = .ok cs := by
  induction fns with
  | nil => exact ⟨[], rfl⟩
  | cons a t ih =>
      rcases NameParser_parse_ok a with ⟨c, hc⟩
      rcases ih with ⟨cs, hcs⟩
      refine ⟨c :: cs, ?_⟩
      rw [List.mapM_cons, hc, hcs]
      rfl

/-- C7: for every list of filenames — malformed calendar dates, malformed
times, missing extensions, arbitrary characters included — `NameParser.parse`
and `NameMerger.merge_names` return normally and never raise: the one
fallible operation (`strptime`) sits inside a `try/except ValueError` whose
handler skips the match. Concretely, an invalid calendar date such as month
13 degrades to no date extracted, and a missing extension degrades to the
empty extension. -/
theorem name_merger_never_raises :
    (∀ filename : String, ∃ c, NameParser_parse filename = Except.ok c) ∧
    (∀ (filenames : List String) (file_size : Option Int),
      ∃ s, NameMerger_merge_names filenames file_size = Except.ok s) ∧
    NameParser_parse "2024-13-99_photo.jpg" =
      .ok { dates := [], times := ["24-13-99"], descriptive_text := ["photo"],
            extension := ".jpg", is_generic := false } ∧
    NameParser_parse "beach trip" =
      .ok { dates := [], times := [], descriptive_text := ["beach", "trip"],
            extension := "", is_generic := false } := by
  refine ⟨NameParser_parse_ok, ?_, by decide, by decide⟩
  intro filenames file_size
  unfold NameMerger_merge_names
  match filenames with
  | [] => exact ⟨"", rfl⟩
  | [only] => exact ⟨only, rfl⟩
  | a :: b :: rest =>
      rcases mapM_parse_ok (a :: b :: rest) with ⟨cs, hcs⟩
      rw [hcs]
      dsimp only
      split
      · split
        · exact ⟨_, rfl⟩
        · exact ⟨_, rfl⟩
      · exact ⟨_, rfl⟩

/-- Substring occurrence test (`sub in s`), over characters. -/
def strContains (s sub : String) : Bool :=
  (List.range (s.data.length + 1)).any fun i =>
    (s.data.drop i).take sub.data.length == sub.data

/-- Number of positions where `sub` occurs in `s`, case-insensitively. -/
def countSubCI (s sub : String) : Nat :=
  (List.range (s.data.length + 1)).countP fun i =>
    ((s.data.drop i).take sub.data.length).map Char.toLower
      == sub.data.map Char.toLower

/-- Suffix test over characters. -/
def strEndsWith (s suffix : String) : Bool :=
  s.data.reverse.take suffix.data.length == suffix.data.reverse

/-- C8: merging `["2024-01-15_beach.jpg", "IMG_20240114_beach_trip.jpg"]` is
deterministic (the embedded merger is a function and the result is this
exact string); the result contains the older date 2024-01-14 as the chosen
date and does not contain 2024-01-15, contains the word "beach" exactly once
(case-insensitively), and ends with the extension ".jpg". -/
theorem merge_names_beach_example :
    NameMerger_merge_names
        ["2024-01-15_beach.jpg", "IMG_20240114_beach_trip.jpg"] none
      = .ok "2024-01-14-24-01-15-beach-IMG-trip.jpg" ∧
    strContains "2024-01-14-24-01-15-beach-IMG-trip.jpg" "2024-01-14" = true ∧
    strContains "2024-01-14-24-01-15-beach-IMG-trip.jpg" "2024-01-15" = false ∧
    countSubCI "2024-01-14-24-01-15-beach-IMG-trip.jpg" "beach" = 1 ∧
    strEndsWith "2024-01-14-24-01-15-beach-IMG-trip.jpg" ".jpg" = true := by
  refine ⟨rfl, by decide, by decide, by decide, by decide⟩
